import Mathlib

attribute [local semireducible] Rat.add

/-!
Verification of the `notification_app` repository (a temperature
store-and-forward client `main.py` plus a collector/aggregation server
`server.py`) against its natural-language specification.

The embedding is shallow: timestamps are parsed to seconds on the
proleptic Gregorian calendar, temperatures are rationals (a model of
Python's float64 in the physically relevant range), fallible external
operations (sensor, network, file system, SMTP) are modelled by explicit
outcome parameters, and each Python function is translated into a Lean
function of the same name.
-/

namespace NotificationApp

/-! ## Calendar / timestamp arithmetic

`datetime.strptime(s, "%Y-%m-%d %H:%M:%S")` and `strftime` are modelled
on canonical fixed-width timestamps.  A timestamp is represented by the
number of seconds since 0000-01-01 00:00:00 (proleptic Gregorian). -/

def isLeap (y : Nat) : Bool :=
  y % 4 == 0 && (y % 100 != 0 || y % 400 == 0)

def monthLen (leap : Bool) : Nat → Nat
  | 1 => 31
  | 2 => if leap then 29 else 28
  | 3 => 31
  | 4 => 30
  | 5 => 31
  | 6 => 30
  | 7 => 31
  | 8 => 31
  | 9 => 30
  | 10 => 31
  | 11 => 30
  | 12 => 31
  | _ => 0

/-- Days contained in the months `1, …, m-1` of a year. -/
def daysBeforeMonth (leap : Bool) : Nat → Nat
  | 0 => 0
  | 1 => 0
  | n + 1 => daysBeforeMonth leap n + monthLen leap n

/-- Number of leap years among `0, …, y-1`. -/
def leapsBefore (y : Nat) : Nat :=
  (y + 3) / 4 - (y + 99) / 100 + (y + 399) / 400

/-- Days contained in the years `0, …, y-1`. -/
def daysBeforeYear (y : Nat) : Nat :=
  365 * y + leapsBefore y

def toEpochSecs (y mo d h mi s : Nat) : Nat :=
  (daysBeforeYear y + daysBeforeMonth (isLeap y) mo + (d - 1)) * 86400
    + h * 3600 + mi * 60 + s

def dval (c : Char) : Nat := c.toNat - 48

/-- Model of `datetime.strptime(s, "%Y-%m-%d %H:%M:%S")` on the
canonical fixed-width format used throughout the repository: `none`
means the call raises `ValueError`. -/
def parseTs (s : String) : Option Nat :=
  match s.data with
  | [y1, y2, y3, y4, c1, m1, m2, c2, d1, d2, c3, h1, h2, c4, n1, n2, c5, s1, s2] =>
    if c1 = '-' ∧ c2 = '-' ∧ c3 = ' ' ∧ c4 = ':' ∧ c5 = ':' ∧
       ([y1, y2, y3, y4, m1, m2, d1, d2, h1, h2, n1, n2, s1, s2].all Char.isDigit) then
      let y := 1000 * dval y1 + 100 * dval y2 + 10 * dval y3 + dval y4
      let mo := 10 * dval m1 + dval m2
      let d := 10 * dval d1 + dval d2
      let h := 10 * dval h1 + dval h2
      let mi := 10 * dval n1 + dval n2
      let se := 10 * dval s1 + dval s2
      if 1 ≤ mo ∧ mo ≤ 12 ∧ 1 ≤ d ∧ d ≤ monthLen (isLeap y) mo ∧
         h ≤ 23 ∧ mi ≤ 59 ∧ se ≤ 59 then
        some (toEpochSecs y mo d h mi se)
      else none
    else none
  | _ => none

def findYearAux (days : Nat) : Nat → Nat → Nat
  | 0, y => y
  | fuel + 1, y => if daysBeforeYear (y + 1) ≤ days then findYearAux days fuel (y + 1) else y

def yearOfDays (days : Nat) : Nat :=
  findYearAux days 40 (days / 366)

def findMonthAux (leap : Bool) (doy : Nat) : Nat → Nat → Nat
  | 0, m => m
  | fuel + 1, m =>
    if daysBeforeMonth leap (m + 1) ≤ doy ∧ m < 12 then findMonthAux leap doy fuel (m + 1)
    else m

def secsToYmdhms (n : Nat) : Nat × Nat × Nat × Nat × Nat × Nat :=
  let days := n / 86400
  let rem := n % 86400
  let y := yearOfDays days
  let doy := days - daysBeforeYear y
  let mo := findMonthAux (isLeap y) doy 12 1
  let d := doy - daysBeforeMonth (isLeap y) mo + 1
  (y, mo, d, rem / 3600, rem % 3600 / 60, rem % 60)

def pad2 (n : Nat) : String :=
  if n < 10 then "0" ++ toString n else toString n

def pad4 (n : Nat) : String :=
  if n < 10 then "000" ++ toString n
  else if n < 100 then "00" ++ toString n
  else if n < 1000 then "0" ++ toString n
  else toString n

/-- Model of `datetime.strftime("%Y-%m-%d %H:%M:%S")`. -/
def formatTs (n : Nat) : String :=
  match secsToYmdhms n with
  | (y, mo, d, h, mi, s) =>
    pad4 y ++ "-" ++ pad2 mo ++ "-" ++ pad2 d ++ " " ++
      pad2 h ++ ":" ++ pad2 mi ++ ":" ++ pad2 s

/-! ## Server data model and aggregation (`server.py`, `models.py`)

A stored reading (`models.py` class `Temperature`) keeps at this level of
abstraction its timestamp string and its temperature; the generated `id`
plays no role in any claim.  The aggregation functions receive the record
list exactly as produced by
`db.query(Temperature).order_by(Temperature.timestamp).all()`. -/

structure Temperature where
  timestamp : String
  temperature : ℚ
deriving DecidableEq

deriving instance DecidableEq for Except

/-- Python's `str.strip()`: removes leading and trailing whitespace. -/
def strip (s : String) : String :=
  ⟨((s.data.dropWhile Char.isWhitespace).reverse.dropWhile Char.isWhitespace).reverse⟩

/-- `server.py` line 45 (test-environment threshold). -/
def THRESHOLD : ℚ := 255

structure AccumResult where
  accumulative_temperature : ℚ
  max_points : List (String × ℚ)
deriving DecidableEq

/-- A record with its timestamp parsed to seconds. -/
abbrev PRec := Nat × ℚ

def advanceAux (rt : Nat) : Nat → Nat → Nat
  | 0, ie => ie
  | fuel + 1, ie => if ie < rt then advanceAux rt fuel (ie + 300) else ie

/-- `while record_time > interval_end: interval_end += timedelta(minutes=5)`
(`server.py` lines 169-170); the fuel `rt` bounds the number of
300-second steps, which never exceeds `rt`. -/
def advance (rt ie : Nat) : Nat := advanceAux rt rt ie

/-- The window-walking loop of `calculate_accumulative_temperature`
(`server.py` lines 144-180) on parsed records, including the final
closing of the open window.  `ie` is `interval_end`; `cm` is the pair
`(max_temperature_time, interval_temperature_max)`, with `none` for the
initial `float("-inf")` sentinel. -/
def winLoopP (ie : Nat) (cm : Option (Nat × ℚ)) (acc : ℚ) (pts : List (String × ℚ)) :
    List PRec → ℚ × List (String × ℚ)
  | [] =>
    match cm with
    | none => (acc, pts)
    | some (mt, mv) => (acc + mv, pts ++ [(formatTs mt, mv)])
  | p :: rest =>
    if p.1 ≤ ie then
      match cm with
      | none => winLoopP ie (some (p.1, p.2)) acc pts rest
      | some (mt, mv) =>
        winLoopP ie (some (if mv < p.2 then (p.1, p.2) else (mt, mv))) acc pts rest
    else
      match cm with
      | none => winLoopP (advance p.1 ie) (some (p.1, p.2)) acc pts rest
      | some (mt, mv) =>
        winLoopP (advance p.1 ie) (some (p.1, p.2)) (acc + mv)
          (pts ++ [(formatTs mt, mv)]) rest

/-- Parsing of every record's timestamp, in order; the loop raises at
the first failure. -/
def parseRecords : List Temperature → Option (List PRec)
  | [] => some []
  | r :: rest =>
    match parseTs r.timestamp with
    | none => none
    | some t =>
      match parseRecords rest with
      | none => none
      | some ps => some ((t, r.temperature) :: ps)

/-- `calculate_accumulative_temperature` (`server.py` lines 131-191)
without its alert-gate tail: the computation of the result dictionary.
`.error ()` models a `ValueError` escaping from `strptime`. -/
def calculate_accumulative_temperature (records : List Temperature) :
    Except Unit AccumResult :=
  match records with
  | [] => .ok ⟨0, []⟩
  | r0 :: _ =>
    match parseTs r0.timestamp with
    | none => .error ()
    | some t0 =>
      match parseRecords records with
      | none => .error ()
      | some ps =>
        let out := winLoopP (t0 + 300) none 0 [] ps
        .ok ⟨out.1, out.2⟩

/-- `gmail_notification` (`server.py` lines 101-129): attempts the SMTP
send; on success writes `"1"` to the flag file; on failure the exception
is caught, logged, and the flag file is left unchanged. -/
def gmail_notification (notifierOk : Bool) (flag : String) : String :=
  if notifierOk then "1" else flag

/-- One full run of `calculate_accumulative_temperature` including its
alert gate (`server.py` lines 182-186).  Returns the outcome visible to
the caller (`.error` = the exception propagates), the new flag-file
content, and the number of notifier invocations.  The empty-record early
return (line 142) happens before the flag check. -/
def calc_windowed_run (records : List Temperature) (flag : String) (notifierOk : Bool) :
    Except Unit AccumResult × String × Nat :=
  match records with
  | [] => (.ok ⟨0, []⟩, flag, 0)
  | _ :: _ =>
    match calculate_accumulative_temperature records with
    | .error e => (.error e, flag, 0)
    | .ok res =>
      let is_notified := strip flag = "1"
      if THRESHOLD < res.accumulative_temperature ∧ ¬ is_notified then
        (.ok res, gmail_notification notifierOk flag, 1)
      else (.ok res, flag, 0)

/-- `record_i.timestamp.split(" ")[0]` (`server.py` line 209): the
prefix before the first space (the whole string when there is none). -/
def datePart (s : String) : String := ⟨s.data.takeWhile (fun c => ¬ c = ' ')⟩

/-- `daily_max[date_str] = max(daily_max[date_str], record_i.temperature)`
on a `defaultdict(lambda: float("-inf"))` (`server.py` lines 200-210),
modelled as an insertion-ordered association list: a fresh key is
appended holding `max(-inf, v) = v`. -/
def updateMax : List (String × ℚ) → String → ℚ → List (String × ℚ)
  | [], d, v => [(d, v)]
  | (k, m) :: rest, d, v =>
    if k = d then (k, max m v) :: rest else (k, m) :: updateMax rest d v

def dailyPairs (records : List Temperature) : List (String × ℚ) :=
  records.foldl (fun acc r => updateMax acc (datePart r.timestamp) r.temperature) []

/-- Python's string `<` (code-point lexicographic), as an executable
comparison: `strLtb a b = true` iff `a < b`. -/
def strLtb : List Char → List Char → Bool
  | [], [] => false
  | [], _ :: _ => true
  | _ :: _, [] => false
  | a :: as, b :: bs => if a = b then strLtb as bs else decide (a < b)

/-- Key order used by `sorted(daily_max.items())`: the keys are distinct,
so Python's lexicographic tuple order is the order of the date keys;
`pairLe a b` states that `a`'s key is not greater than `b`'s. -/
def pairLe (a b : String × ℚ) : Prop := strLtb b.1.data a.1.data = false

instance : DecidableRel pairLe := fun a b =>
  inferInstanceAs (Decidable (strLtb b.1.data a.1.data = false))

/-- `calculate_accumulative_temperature_production_env` (`server.py`
lines 193-224) without its alert-gate tail.  It never parses timestamps,
so it is total. -/
def calculate_accumulative_temperature_production_env (records : List Temperature) :
    AccumResult :=
  match records with
  | [] => ⟨0, []⟩
  | _ :: _ =>
    let daily_max_points := List.insertionSort pairLe (dailyPairs records)
    ⟨(daily_max_points.map Prod.snd).sum, daily_max_points⟩

/-- One full run of the production-environment variant including its
alert gate (`server.py` lines 216-219). -/
def calc_daily_run (records : List Temperature) (flag : String) (notifierOk : Bool) :
    AccumResult × String × Nat :=
  match records with
  | [] => (⟨0, []⟩, flag, 0)
  | _ :: _ =>
    let res := calculate_accumulative_temperature_production_env records
    let is_notified := strip flag = "1"
    if THRESHOLD < res.accumulative_temperature ∧ ¬ is_notified then
      (res, gmail_notification notifierOk flag, 1)
    else (res, flag, 0)

/-- Server-side persistent state: the `temperatures` table (ordered as
the `order_by` query returns it) and the content of `notified.flag`. -/
structure ServerState where
  records : List Temperature
  flagFile : String
deriving DecidableEq

/-- `GET /accumulative_temperature/` (`server.py` lines 276-287): returns
the computed result (HTTP 500 if the computation raises) and performs the
alert-gate side effects. -/
def get_accumulative_temperature (st : ServerState) (notifierOk : Bool) :
    Except Unit AccumResult × ServerState × Nat :=
  match calc_windowed_run st.records st.flagFile notifierOk with
  | (res, f, n) => (res, ⟨st.records, f⟩, n)

/-- The 300-second periodic job (`server.py` lines 306-316): same
computation, result discarded. -/
def accumulative_temperature_check (st : ServerState) (notifierOk : Bool) :
    ServerState × Nat :=
  match calc_windowed_run st.records st.flagFile notifierOk with
  | (_, f, n) => (⟨st.records, f⟩, n)

/-- `DELETE /temperature/reset/` (`server.py` lines 289-304).
`commitOk` is the outcome of `delete()` + `commit()`; `flagWriteOk` the
outcome of the flag-file write, which happens after the commit.  The
returned Bool is true when the handler answers with HTTP 500. -/
def reset_temperature (st : ServerState) (commitOk flagWriteOk : Bool) :
    ServerState × Bool :=
  if ¬ commitOk then (st, true)
  else if ¬ flagWriteOk then ({ st with records := [] }, true)
  else (⟨[], "0"⟩, false)

/-- A threshold check: one invocation of either aggregation policy over
some record list, with a given notifier outcome. -/
inductive Policy
  | windowed
  | daily
deriving DecidableEq

structure CheckCall where
  policy : Policy
  records : List Temperature
  notifierOk : Bool

def runCheck (c : CheckCall) (flag : String) : String × Nat :=
  match c.policy with
  | .windowed => (calc_windowed_run c.records flag c.notifierOk).2
  | .daily => (calc_daily_run c.records flag c.notifierOk).2

/-- Folds a sequence of threshold checks over the flag state, counting
the total number of notifier invocations. -/
def runChecks (flag : String) : List CheckCall → String × Nat
  | [] => (flag, 0)
  | c :: cs =>
    match runCheck c flag with
    | (f, n) =>
      match runChecks f cs with
      | (g, m) => (g, n + m)

/-! ## Client store-and-forward transmitter (`main.py`) -/

structure Reading where
  timestamp : String
  temperature : ℚ
deriving DecidableEq

/-- `valid_temperature` (`main.py` lines 31-41): `-10 <= temp <= 100`. -/
def valid_temperature (t : ℚ) : Bool := decide (-10 ≤ t) && decide (t ≤ 100)

/-- The local queue file `unsent_data.json`: `none` = absent; `some xs` =
present and holding the JSON array `xs`. -/
abbrev QueueFile := Option (List Reading)

/-- `load_unsent_data` (`main.py` lines 72-81): an absent file yields the
empty list; a present file is read and JSON-decoded with no exception
handler, so a read/decode failure (`loadOk = false`) raises. -/
def load_unsent_data (loadOk : Bool) (q : QueueFile) : Except Unit (List Reading) :=
  match q with
  | none => .ok []
  | some xs => if loadOk then .ok xs else .error ()

/-- `clear_unsent_data` (`main.py` lines 83-88): unlinks the file; a
failure is caught and logged, leaving the file as it was. -/
def clear_unsent_data (clearOk : Bool) (q : QueueFile) : QueueFile :=
  if clearOk then none else q

/-- `save_unsent_data` (`main.py` lines 56-70): creates the file lazily,
appends one reading; any failure is caught and logged, leaving the file
as it was. -/
def save_unsent_data (saveOk : Bool) (q : QueueFile) (r : Reading) : QueueFile :=
  if saveOk then some (q.getD [] ++ [r]) else q

/-- Python's `for item in unsent_data: if send_to_server(item):
unsent_data.remove(item)` (`main.py` lines 149-151): the iterator walks
by index over a list that is mutated while being scanned; `remove`
deletes the first equal element.  Returns the items on which a delivery
was attempted and the final content of the working list. -/
def drainAux (send : Reading → Bool) : Nat → Nat → List Reading → List Reading × List Reading
  | 0, _, lst => ([], lst)
  | fuel + 1, i, lst =>
    match lst[i]? with
    | none => ([], lst)
    | some item =>
      let lst' := if send item then lst.erase item else lst
      match drainAux send fuel (i + 1) lst' with
      | (att, fin) => (item :: att, fin)

def drainPending (send : Reading → Bool) (lst : List Reading) : List Reading × List Reading :=
  drainAux send lst.length 0 lst

/-- Lines 153-156 of `main.py`: persist the remaining items as the whole
new queue content; an empty remainder clears the file.  The direct
`write_text` on line 154 has no exception handler, so its failure
(`persistOk = false`) raises. -/
def replaceAll (persistOk clearOk : Bool) (xs : List Reading) (q : QueueFile) :
    Except Unit QueueFile :=
  if xs ≠ [] then (if persistOk then .ok (some xs) else .error ())
  else .ok (clear_unsent_data clearOk q)

/-- Outcomes of all external operations a single sampling tick performs. -/
structure TickEnv where
  sensorRead : Except Unit ℚ
  timestamp : String
  isConnected : Bool
  loadOk : Bool
  persistOk : Bool
  clearOk : Bool
  saveOk : Bool
  sendOk : Reading → Bool

/-- One iteration of the `while True:` sampling loop (`main.py` lines
134-164).  `.error ()` means an exception propagates out of the
iteration (crashing `main`); `.ok (q, n)` gives the final queue-file
content and the number of `send_to_server` calls made. -/
def tick (env : TickEnv) (q : QueueFile) : Except Unit (QueueFile × Nat) :=
  match env.sensorRead with
  | .error e => .error e
  | .ok temperature =>
    if ¬ valid_temperature temperature then .ok (q, 0)
    else
      let data : Reading := ⟨env.timestamp, temperature⟩
      match load_unsent_data env.loadOk q with
      | .error e => .error e
      | .ok unsent_data =>
        if env.isConnected then
          match drainPending env.sendOk unsent_data with
          | (attempted, remaining) =>
            match replaceAll env.persistOk env.clearOk remaining q with
            | .error e => .error e
            | .ok q1 =>
              if env.sendOk data then .ok (q1, attempted.length + 1)
              else .ok (save_unsent_data env.saveOk q1 data, attempted.length + 1)
        else
          .ok (save_unsent_data env.saveOk q data, 0)

/-! ## Specification-side definitions

These state the windowing and grouping policies the way the
specification describes them (per-window maxima, per-date maxima); the
theorems below compare the translated code against them. -/

/-- Index of the 5-minute window, anchored at `t0`, containing time `t`
(for `t ≥ t0`): window 0 is `[t0, t0 + 300]` and window `k ≥ 1` is
`(t0 + 300k, t0 + 300(k+1)]`, matching the inclusive
`record_time <= interval_end` membership test of the code. -/
def widx (t0 t : Nat) : Nat := (t - t0 - 1) / 300

/-- Collapses consecutive equal entries of a list of window indices. -/
def dedupConsec : List Nat → List Nat
  | [] => []
  | [a] => [a]
  | a :: b :: rest =>
    if a = b then dedupConsec (b :: rest) else a :: dedupConsec (b :: rest)

/-- Maximum of a list of temperatures (0 on the empty list, which never
arises where it is used). -/
def maxOf : List ℚ → ℚ
  | [] => 0
  | v :: vs => vs.foldl max v

/-- The window indices containing at least one reading, in order, for a
time-sorted parsed record list. -/
def occupiedWindows (t0 : Nat) (ps : List PRec) : List Nat :=
  dedupConsec (ps.map fun p => widx t0 p.1)

/-- Maximum temperature among the readings falling in window `k`. -/
def windowMax (t0 k : Nat) (ps : List PRec) : ℚ :=
  maxOf ((ps.filter fun p => widx t0 p.1 = k).map Prod.snd)

/-- The per-window temperature lists seen from the middle of the loop:
window `k0` is the currently open window whose running maximum is `mv`;
beyond it the windows of `ps`. -/
def seedVals (t0 k0 : Nat) (mv : ℚ) (k : Nat) (ps : List PRec) : List ℚ :=
  (if k = k0 then [mv] else []) ++ (ps.filter fun p => widx t0 p.1 = k).map Prod.snd

/-- The per-window maxima still to be emitted from the middle of the
loop, in window order. -/
def windowVals (t0 k0 : Nat) (mv : ℚ) (ps : List PRec) : List ℚ :=
  (dedupConsec (k0 :: ps.map fun p => widx t0 p.1)).map fun k =>
    maxOf (seedVals t0 k0 mv k ps)

/-- First-occurrence deduplication: the key insertion order of a Python
dict. -/
def dedupFirst (l : List String) : List String :=
  l.foldl (fun acc a => if a ∈ acc then acc else acc ++ [a]) []

/-- Maximum temperature among the records whose date component is `d`. -/
def dateMax (d : String) (records : List Temperature) : ℚ :=
  maxOf ((records.filter fun r => datePart r.timestamp = d).map Temperature.temperature)

/-! ## Concrete fixtures used by counterexamples and witnesses -/

def recT0 : Temperature := ⟨"2024-05-01 10:00:00", 10⟩

def recT1 : Temperature := ⟨"2024-05-01 10:01:00", 20⟩

def recT6 : Temperature := ⟨"2024-05-01 10:06:00", 5⟩

def recT47 : Temperature := ⟨"2024-05-01 10:47:00", 30⟩

def recHot : Temperature := ⟨"2024-05-01 10:00:00", 300⟩

def recBad : Temperature := ⟨"bad-timestamp", 10⟩

def rdA : Reading := ⟨"2024-05-01 10:00:00", 20⟩

def rdB : Reading := ⟨"2024-05-01 10:00:30", 21⟩

/-- Readings spanning two calendar dates with per-date maxima 40 and
60. -/
def dailyExample : List Temperature :=
  [⟨"2024-05-01 10:00:00", 40⟩, ⟨"2024-05-01 11:00:00", 35⟩,
   ⟨"2024-05-02 09:00:00", 60⟩, ⟨"2024-05-02 10:00:00", 20⟩]

/-- A tick in which every external operation succeeds. -/
def envAllOk : TickEnv :=
  ⟨.ok 25, "2024-05-01 10:30:00", true, true, true, true, true, fun _ => true⟩

/-- A tick whose queue-file read fails (corrupt or unreadable file). -/
def envLoadFail : TickEnv :=
  ⟨.ok 25, "2024-05-01 10:30:00", true, false, true, true, true, fun _ => true⟩

/-- A tick whose sensor read raises. -/
def envSensorFail : TickEnv :=
  ⟨.error (), "2024-05-01 10:30:00", true, true, true, true, true, fun _ => true⟩

/-! ## Helper lemmas -/

/-- With the notify flag already set, a single check of either policy
invokes the notifier zero times and leaves the flag alone. -/
theorem runCheck_of_notified (c : CheckCall) (flag : String) (h : strip flag = "1") :
    runCheck c flag = (flag, 0) := by
  cases c with
  | mk policy records notifierOk =>
    cases policy with
    | windowed =>
      simp only [runCheck, calc_windowed_run]
      cases records with
      | nil => rfl
      | cons r rest =>
        cases calculate_accumulative_temperature (r :: rest) with
        | error e => rfl
        | ok res => simp [h]
    | daily =>
      simp only [runCheck, calc_daily_run]
      cases records with
      | nil => rfl
      | cons r rest => simp [h]

/-- With the notify flag already set, any sequence of checks invokes the
notifier zero times in total and leaves the flag alone. -/
theorem runChecks_of_notified (flag : String) (h : strip flag = "1") :
    ∀ cs : List CheckCall, runChecks flag cs = (flag, 0) := by
  intro cs
  induction cs with
  | nil => rfl
  | cons c rest ih =>
    simp only [runChecks, runCheck_of_notified c flag h, ih]

/-- `parseRecords` fails exactly when some record's timestamp fails to
parse. -/
theorem parseRecords_eq_none (rs : List Temperature) :
    parseRecords rs = none ↔ ∃ r ∈ rs, parseTs r.timestamp = none := by
  induction rs with
  | nil => simp [parseRecords]
  | cons r rest ih =>
    simp only [parseRecords]
    cases h : parseTs r.timestamp with
    | none => simp [h]
    | some t =>
      cases hp : parseRecords rest with
      | none =>
        simp only [h, hp]
        refine iff_of_true (by simp) ?_
        obtain ⟨x, hx, hnone⟩ := ih.1 hp
        exact ⟨x, List.mem_cons_of_mem r hx, hnone⟩
      | some ps =>
        simp only [h, hp]
        refine iff_of_false (by simp) fun hex => ?_
        obtain ⟨x, hx, hnone⟩ := hex
        rcases List.mem_cons.mp hx with rfl | hx2
        · rw [h] at hnone
          exact Option.noConfusion hnone
        · rw [ih.2 ⟨x, hx2, hnone⟩] at hp
          exact Option.noConfusion hp

/-- `strLtb` decides the lexicographic order on character lists. -/
theorem strLtb_iff_lt : ∀ as bs : List Char, strLtb as bs = true ↔ as < bs := by
  intro as
  induction as with
  | nil =>
    intro bs
    cases bs with
    | nil => exact Iff.intro (fun h => nomatch h) (fun h => nomatch h)
    | cons b bs => exact Iff.intro (fun _ => List.Lex.nil) (fun _ => rfl)
  | cons a as ih =>
    intro bs
    cases bs with
    | nil => exact Iff.intro (fun h => nomatch h) (fun h => nomatch h)
    | cons b bs =>
      by_cases hab : a = b
      · subst hab
        simp only [strLtb, if_pos rfl]
        constructor
        · intro h
          exact .cons ((ih bs).1 h)
        · intro h
          cases h with
          | cons h3 => exact (ih bs).2 h3
          | rel h1 => exact absurd h1 (lt_irrefl a)
      · simp only [strLtb, if_neg hab]
        constructor
        · intro h
          exact .rel (of_decide_eq_true h)
        · intro h
          cases h with
          | cons h3 => exact absurd rfl hab
          | rel h1 => exact decide_eq_true h1

/-- `pairLe` agrees with the order on the date keys. -/
theorem pairLe_iff (a b : String × ℚ) : pairLe a b ↔ a.1 ≤ b.1 := by
  unfold pairLe
  rw [← Bool.not_eq_true, strLtb_iff_lt]
  have h2 : (b.1.data < a.1.data) ↔ b.1 < a.1 := by
    rw [String.lt_iff_toList_lt]
    exact Iff.rfl
  rw [h2]
  exact not_lt

instance : IsTotal (String × ℚ) pairLe :=
  ⟨fun a b => by rw [pairLe_iff, pairLe_iff]; exact le_total a.1 b.1⟩

instance : IsTrans (String × ℚ) pairLe :=
  ⟨fun a b c hab hbc => by
    rw [pairLe_iff] at hab hbc ⊢
    exact le_trans hab hbc⟩

theorem maxOf_append_single (xs : List ℚ) (v : ℚ) :
    maxOf (xs ++ [v]) = if xs = [] then v else max (maxOf xs) v := by
  cases xs with
  | nil => simp [maxOf]
  | cons x xs =>
    simp only [List.cons_append, maxOf, if_neg (List.cons_ne_nil x xs)]
    simp [List.foldl_append]

theorem dedupFirst_append_single (l : List String) (d : String) :
    dedupFirst (l ++ [d]) =
      if d ∈ dedupFirst l then dedupFirst l else dedupFirst l ++ [d] := by
  simp [dedupFirst, List.foldl_append]

theorem mem_dedupFirst_aux (l : List String) :
    ∀ (ks : List String) (x : String),
      x ∈ List.foldl (fun ks a => if a ∈ ks then ks else ks ++ [a]) ks l ↔
        x ∈ ks ∨ x ∈ l := by
  induction l with
  | nil => simp
  | cons a l ih =>
    intro ks x
    simp only [List.foldl_cons]
    by_cases ha : a ∈ ks
    · rw [if_pos ha, ih]
      constructor
      · rintro (h | h)
        · exact Or.inl h
        · exact Or.inr (List.mem_cons_of_mem a h)
      · rintro (h | h)
        · exact Or.inl h
        · rcases List.mem_cons.mp h with rfl | h2
          · exact Or.inl ha
          · exact Or.inr h2
    · rw [if_neg ha, ih]
      simp only [List.mem_append, List.mem_singleton, List.mem_cons]
      tauto

theorem mem_dedupFirst (l : List String) (x : String) :
    x ∈ dedupFirst l ↔ x ∈ l := by
  simpa using mem_dedupFirst_aux l [] x

theorem nodup_dedupFirst_aux (l : List String) :
    ∀ ks : List String, ks.Nodup →
      (List.foldl (fun ks a => if a ∈ ks then ks else ks ++ [a]) ks l).Nodup := by
  induction l with
  | nil => intro ks h; simpa using h
  | cons a l ih =>
    intro ks h
    simp only [List.foldl_cons]
    by_cases ha : a ∈ ks
    · rw [if_pos ha]
      exact ih ks h
    · rw [if_neg ha]
      refine ih _ ?_
      simp [List.nodup_append, h, ha]

theorem nodup_dedupFirst (l : List String) : (dedupFirst l).Nodup :=
  nodup_dedupFirst_aux l [] List.nodup_nil

theorem updateMax_map_mem (K : List String) (f : String → ℚ) (d : String) (v : ℚ)
    (hmem : d ∈ K) (hnd : K.Nodup) :
    updateMax (K.map fun k => (k, f k)) d v =
      K.map fun k => (k, if k = d then max (f k) v else f k) := by
  induction K with
  | nil => cases hmem
  | cons k0 K ih =>
    simp only [List.map_cons, updateMax]
    by_cases hk : k0 = d
    · subst hk
      rw [if_pos rfl]
      simp only [if_pos rfl]
      have htail : ∀ k ∈ K, ¬ k = k0 := by
        intro k hkK hkk
        exact (List.nodup_cons.mp hnd).1 (hkk ▸ hkK)
      congr 1
      exact (List.map_congr_left fun k hkK => by rw [if_neg (htail k hkK)]).symm
    · rw [if_neg hk]
      rcases List.mem_cons.mp hmem with rfl | hmem2
      · exact absurd rfl hk
      · rw [ih hmem2 (List.nodup_cons.mp hnd).2]
        simp only [if_neg hk]

theorem updateMax_map_not_mem (K : List String) (f : String → ℚ) (d : String) (v : ℚ)
    (hmem : d ∉ K) :
    updateMax (K.map fun k => (k, f k)) d v = (K.map fun k => (k, f k)) ++ [(d, v)] := by
  induction K with
  | nil => rfl
  | cons k0 K ih =>
    simp only [List.map_cons, updateMax]
    have hk0 : ¬ k0 = d := by
      intro h
      exact hmem (h ▸ List.mem_cons_self k0 K)
    rw [if_neg hk0]
    rw [ih fun h => hmem (List.mem_cons_of_mem _ h)]
    simp

theorem filter_date_ne_nil (rs : List Temperature) (d : String) :
    d ∈ rs.map (fun r => datePart r.timestamp) ↔
      ¬ (rs.filter fun x => datePart x.timestamp = d) = [] := by
  rw [List.mem_map]
  constructor
  · rintro ⟨x, hx, rfl⟩ hnil
    have : x ∈ rs.filter fun y => datePart y.timestamp = datePart x.timestamp :=
      List.mem_filter.mpr ⟨hx, by simp⟩
    rw [hnil] at this
    cases this
  · intro hne
    rcases List.exists_mem_of_ne_nil _ hne with ⟨x, hx⟩
    rcases List.mem_filter.mp hx with ⟨hxrs, hxd⟩
    exact ⟨x, hxrs, of_decide_eq_true hxd⟩

theorem dateMax_append_other (rs : List Temperature) (r : Temperature) (d : String)
    (hd : ¬ datePart r.timestamp = d) :
    dateMax d (rs ++ [r]) = dateMax d rs := by
  unfold dateMax
  rw [List.filter_append]
  have : (List.filter (fun x => decide (datePart x.timestamp = d)) [r]) = [] := by
    simp [hd]
  rw [this, List.append_nil]

theorem dateMax_append_same (rs : List Temperature) (r : Temperature) :
    dateMax (datePart r.timestamp) (rs ++ [r]) =
      if (rs.filter fun x => datePart x.timestamp = datePart r.timestamp) = []
      then r.temperature
      else max (dateMax (datePart r.timestamp) rs) r.temperature := by
  unfold dateMax
  rw [List.filter_append]
  have h1 : (List.filter (fun x => decide (datePart x.timestamp = datePart r.timestamp)) [r])
      = [r] := by simp
  rw [h1, List.map_append, List.map_singleton, maxOf_append_single]
  by_cases h : (rs.filter fun x => datePart x.timestamp = datePart r.timestamp) = []
  · rw [if_pos h, if_pos (by rw [h]; rfl)]
  · rw [if_neg h, if_neg (by simpa using h)]

/-- The association list built by the daily-maximum fold holds, in
first-encounter key order, the maximum temperature of each date. -/
theorem dailyPairs_eq (rs : List Temperature) :
    dailyPairs rs =
      (dedupFirst (rs.map fun r => datePart r.timestamp)).map
        fun d => (d, dateMax d rs) := by
  induction rs using List.reverseRecOn with
  | nil => rfl
  | append_singleton rs r ih =>
    have h1 : dailyPairs (rs ++ [r]) =
        updateMax (dailyPairs rs) (datePart r.timestamp) r.temperature := by
      simp [dailyPairs, List.foldl_append]
    have hkeys : ((rs ++ [r]).map fun x => datePart x.timestamp) =
        (rs.map fun x => datePart x.timestamp) ++ [datePart r.timestamp] := by
      simp
    rw [h1, ih, hkeys, dedupFirst_append_single]
    by_cases hmem : datePart r.timestamp ∈ dedupFirst (rs.map fun x => datePart x.timestamp)
    · rw [if_pos hmem]
      rw [updateMax_map_mem _ _ _ _ hmem (nodup_dedupFirst _)]
      apply List.map_congr_left
      intro k hk
      by_cases hkd : k = datePart r.timestamp
      · rw [if_pos hkd, hkd]
        have hne : ¬ (rs.filter fun x =>
            datePart x.timestamp = datePart r.timestamp) = [] :=
          (filter_date_ne_nil rs _).mp ((mem_dedupFirst _ _).mp hmem)
        rw [dateMax_append_same, if_neg hne]
      · rw [if_neg hkd, dateMax_append_other rs r k fun h => hkd h.symm]
    · rw [if_neg hmem]
      rw [updateMax_map_not_mem _ _ _ _ hmem]
      rw [List.map_append, List.map_singleton]
      congr 1
      · apply List.map_congr_left
        intro k hk
        have hkd : ¬ datePart r.timestamp = k := by
          intro h
          exact hmem (h ▸ hk)
        rw [dateMax_append_other rs r k hkd]
      · have hnil : (rs.filter fun x => datePart x.timestamp = datePart r.timestamp) = [] := by
          by_contra hne
          exact hmem ((mem_dedupFirst _ _).mpr ((filter_date_ne_nil rs _).mpr hne))
        rw [dateMax_append_same, if_pos hnil]

theorem advanceAux_eq (rt : Nat) :
    ∀ (fuel ie : Nat), rt ≤ ie + fuel →
      advanceAux rt fuel ie = ie + 300 * ((rt - ie + 299) / 300) := by
  intro fuel
  induction fuel with
  | zero =>
    intro ie h
    simp only [advanceAux]
    omega
  | succ fuel ih =>
    intro ie h
    simp only [advanceAux]
    by_cases hlt : ie < rt
    · rw [if_pos hlt, ih (ie + 300) (by omega)]
      omega
    · rw [if_neg hlt]
      omega

theorem advance_eq (t0 k0 rt : Nat) (hgt : k0 < widx t0 rt) :
    advance rt (t0 + 300 * (k0 + 1)) = t0 + 300 * (widx t0 rt + 1) := by
  have h1 := advanceAux_eq rt rt (t0 + 300 * (k0 + 1)) (by omega)
  rw [advance, h1]
  unfold widx at *
  omega

theorem widx_mono (t0 : Nat) {t t' : Nat} (h : t ≤ t') : widx t0 t ≤ widx t0 t' := by
  unfold widx
  exact Nat.div_le_div_right (by omega)

theorem le_ie_of_widx_eq (t0 k0 t : Nat) (h : widx t0 t = k0) :
    t ≤ t0 + 300 * (k0 + 1) := by
  unfold widx at h
  omega

theorem ie_lt_of_widx_gt (t0 k0 t : Nat) (h : k0 < widx t0 t) :
    t0 + 300 * (k0 + 1) < t := by
  unfold widx at h
  omega

theorem mem_dedupConsec : ∀ (l : List Nat) (x : Nat), x ∈ dedupConsec l → x ∈ l := by
  intro l
  induction l with
  | nil =>
    intro x h
    exact absurd h (by simp [dedupConsec])
  | cons a rest ih =>
    intro x h
    cases rest with
    | nil => simpa [dedupConsec] using h
    | cons b rest2 =>
      by_cases hab : a = b
      · rw [dedupConsec, if_pos hab] at h
        exact List.mem_cons_of_mem a (ih x h)
      · rw [dedupConsec, if_neg hab] at h
        rcases List.mem_cons.mp h with rfl | h2
        · exact List.mem_cons_self x _
        · exact List.mem_cons_of_mem a (ih x h2)

theorem ite_lt_max (a b : ℚ) : (if a < b then b else a) = max a b := by
  rcases le_or_lt b a with h | h
  · rw [if_neg (not_lt.mpr h), max_eq_left h]
  · rw [if_pos h, max_eq_right h.le]

/-- Absorbing one more reading of the currently open window into the
running maximum. -/
theorem windowVals_cons_eq (t0 k0 : Nat) (mv : ℚ) (p : PRec) (rest : List PRec)
    (hk : widx t0 p.1 = k0) :
    windowVals t0 k0 mv (p :: rest) = windowVals t0 k0 (max mv p.2) rest := by
  unfold windowVals
  rw [List.map_cons, hk]
  have hkeys : dedupConsec (k0 :: k0 :: rest.map fun q => widx t0 q.1) =
      dedupConsec (k0 :: rest.map fun q => widx t0 q.1) := by
    rw [dedupConsec, if_pos rfl]
  rw [hkeys]
  apply List.map_congr_left
  intro k hkmem
  unfold seedVals
  by_cases hkk : k = k0
  · subst hkk
    rw [if_pos rfl, if_pos rfl]
    rw [List.filter_cons_of_pos (by simp [hk])]
    simp [maxOf]
  · rw [if_neg hkk, if_neg hkk]
    rw [List.filter_cons_of_neg (by simp [hk]; exact fun h => hkk h.symm)]

/-- Closing the open window `k0` and opening the window of `p`. -/
theorem windowVals_cons_gt (t0 k0 : Nat) (mv : ℚ) (p : PRec) (rest : List PRec)
    (hk : k0 < widx t0 p.1)
    (hrest : ∀ q ∈ rest, widx t0 p.1 ≤ widx t0 q.1) :
    windowVals t0 k0 mv (p :: rest) =
      mv :: windowVals t0 (widx t0 p.1) p.2 rest := by
  unfold windowVals
  rw [List.map_cons]
  have hne : ¬ k0 = widx t0 p.1 := Nat.ne_of_lt hk
  rw [dedupConsec, if_neg hne]
  rw [List.map_cons]
  congr 1
  · -- head value: the open window's seeded maximum is mv, nothing else
    -- falls into window k0
    unfold seedVals
    rw [if_pos rfl]
    have hfil : ((p :: rest).filter fun q => widx t0 q.1 = k0) = [] := by
      rw [List.filter_eq_nil_iff]
      intro q hq
      rcases List.mem_cons.mp hq with rfl | hq2
      · simp
        omega
      · simp
        have := hrest q hq2
        omega
    rw [hfil]
    simp [maxOf]
  · apply List.map_congr_left
    intro k hkmem
    have hkmem2 : k ∈ (widx t0 p.1) :: rest.map fun q => widx t0 q.1 :=
      mem_dedupConsec _ k hkmem
    have hkge : widx t0 p.1 ≤ k := by
      rcases List.mem_cons.mp hkmem2 with rfl | h2
      · exact le_refl _
      · rcases List.mem_map.mp h2 with ⟨q, hq, rfl⟩
        exact hrest q hq
    unfold seedVals
    rw [if_neg (by omega)]
    by_cases hkp : k = widx t0 p.1
    · subst hkp
      rw [if_pos rfl]
      rw [List.filter_cons_of_pos (by simp)]
      simp
    · rw [if_neg hkp]
      rw [List.filter_cons_of_neg (by simp; exact fun h => hkp h.symm)]

/-- The seeded window values of the loop entered after the first
reading are exactly the per-window maxima of the whole record list. -/
theorem windowVals_full (t0 : Nat) (p0 : PRec) (rest : List PRec)
    (h0 : p0.1 = t0) :
    windowVals t0 0 p0.2 rest =
      (occupiedWindows t0 (p0 :: rest)).map fun k => windowMax t0 k (p0 :: rest) := by
  unfold windowVals occupiedWindows
  have hw0 : widx t0 p0.1 = 0 := by
    unfold widx
    omega
  rw [List.map_cons, hw0]
  apply List.map_congr_left
  intro k hkmem
  unfold seedVals windowMax
  by_cases hk0 : k = 0
  · subst hk0
    rw [if_pos rfl]
    rw [List.filter_cons_of_pos (by simp [hw0])]
    rfl
  · rw [if_neg hk0]
    rw [List.filter_cons_of_neg (by simp [hw0]; exact fun h => hk0 h.symm)]
    rfl

/-- Main loop invariant: entered mid-loop with open window `k0`, running
maximum `mv`, and remaining sorted readings `ps` all at or beyond window
`k0`, the loop returns the accumulated sum plus the remaining per-window
maxima and appends exactly those maxima to the emitted points. -/
theorem winLoopP_run (t0 : Nat) :
    ∀ (ps : List PRec) (k0 mt : Nat) (mv acc : ℚ) (pts : List (String × ℚ)),
      List.Pairwise (fun a b : PRec => a.1 ≤ b.1) ps →
      (∀ p ∈ ps, k0 ≤ widx t0 p.1) →
      (winLoopP (t0 + 300 * (k0 + 1)) (some (mt, mv)) acc pts ps).1 =
          acc + (windowVals t0 k0 mv ps).sum ∧
      ((winLoopP (t0 + 300 * (k0 + 1)) (some (mt, mv)) acc pts ps).2).map Prod.snd =
          pts.map Prod.snd ++ windowVals t0 k0 mv ps := by
  intro ps
  induction ps with
  | nil =>
    intro k0 mt mv acc pts hsort hmem
    constructor
    · simp [winLoopP, windowVals, dedupConsec, seedVals, maxOf]
    · simp [winLoopP, windowVals, dedupConsec, seedVals, maxOf]
  | cons p rest ih =>
    intro k0 mt mv acc pts hsort hmem
    have hpk : k0 ≤ widx t0 p.1 := hmem p (List.mem_cons_self p rest)
    have hsort2 : List.Pairwise (fun a b : PRec => a.1 ≤ b.1) rest :=
      (List.pairwise_cons.mp hsort).2
    have hple : ∀ q ∈ rest, p.1 ≤ q.1 := (List.pairwise_cons.mp hsort).1
    rcases Nat.lt_or_ge k0 (widx t0 p.1) with hgt | hge
    · have hie : t0 + 300 * (k0 + 1) < p.1 := ie_lt_of_widx_gt t0 k0 p.1 hgt
      have hstep : winLoopP (t0 + 300 * (k0 + 1)) (some (mt, mv)) acc pts (p :: rest) =
          winLoopP (t0 + 300 * (widx t0 p.1 + 1)) (some (p.1, p.2)) (acc + mv)
            (pts ++ [(formatTs mt, mv)]) rest := by
        simp only [winLoopP]
        rw [if_neg (by omega), advance_eq t0 k0 p.1 hgt]
      have hmem2 : ∀ q ∈ rest, widx t0 p.1 ≤ widx t0 q.1 := fun q hq =>
        widx_mono t0 (hple q hq)
      have ihh := ih (widx t0 p.1) p.1 p.2 (acc + mv)
        (pts ++ [(formatTs mt, mv)]) hsort2 hmem2
      rw [hstep, windowVals_cons_gt t0 k0 mv p rest hgt hmem2]
      constructor
      · rw [ihh.1]
        simp [add_assoc]
      · rw [ihh.2]
        simp
    · have hk : widx t0 p.1 = k0 := le_antisymm hge hpk
      have hle2 : p.1 ≤ t0 + 300 * (k0 + 1) := le_ie_of_widx_eq t0 k0 p.1 hk
      have hmem2 : ∀ q ∈ rest, k0 ≤ widx t0 q.1 := fun q hq =>
        hmem q (List.mem_cons_of_mem p hq)
      rw [windowVals_cons_eq t0 k0 mv p rest hk]
      rcases lt_or_ge mv p.2 with hmv | hmv
      · have hstep : winLoopP (t0 + 300 * (k0 + 1)) (some (mt, mv)) acc pts (p :: rest) =
            winLoopP (t0 + 300 * (k0 + 1)) (some (p.1, p.2)) acc pts rest := by
          simp only [winLoopP]
          rw [if_pos hle2, if_pos hmv]
        have hmax : max mv p.2 = p.2 := max_eq_right hmv.le
        rw [hstep, hmax]
        exact ih k0 p.1 p.2 acc pts hsort2 hmem2
      · have hstep : winLoopP (t0 + 300 * (k0 + 1)) (some (mt, mv)) acc pts (p :: rest) =
            winLoopP (t0 + 300 * (k0 + 1)) (some (mt, mv)) acc pts rest := by
          simp only [winLoopP]
          rw [if_pos hle2, if_neg (not_lt.mpr hmv)]
        have hmax : max mv p.2 = mv := max_eq_left hmv
        rw [hstep, hmax]
        exact ih k0 mt mv acc pts hsort2 hmem2

/-! ## Claims -/

/-- C2: for every state in which the persisted notify flag is true, any
sequence of subsequent threshold checks — via either aggregation policy,
the `GET /accumulative_temperature/` endpoint, or the periodic job —
invokes the external notifier zero additional times. -/
theorem notified_flag_idempotent (flag : String) (h : strip flag = "1") :
    (∀ cs : List CheckCall, (runChecks flag cs).2 = 0 ∧ (runChecks flag cs).1 = flag) ∧
    (∀ (st : ServerState) (ok : Bool), st.flagFile = flag →
      (get_accumulative_temperature st ok).2.2 = 0 ∧
      (accumulative_temperature_check st ok).2 = 0) := by
  constructor
  · intro cs
    rw [runChecks_of_notified flag h cs]
    exact ⟨rfl, rfl⟩
  · intro st ok hst
    have hw : (calc_windowed_run st.records st.flagFile ok).2 = (flag, 0) := by
      have := runCheck_of_notified ⟨.windowed, st.records, ok⟩ flag h
      simpa [runCheck, hst] using this
    constructor
    · simp only [get_accumulative_temperature]
      cases hcw : calc_windowed_run st.records st.flagFile ok with
      | mk res fn => rw [hcw] at hw; simpa using congrArg Prod.snd hw
    · simp only [accumulative_temperature_check]
      cases hcw : calc_windowed_run st.records st.flagFile ok with
      | mk res fn => rw [hcw] at hw; simpa using congrArg Prod.snd hw

theorem notified_flag_idempotent_witness :
    (runChecks "1" [⟨.windowed, [recHot], true⟩, ⟨.daily, [recHot], true⟩]).2 = 0 :=
  ((notified_flag_idempotent "1" (by decide)).1
    [⟨.windowed, [recHot], true⟩, ⟨.daily, [recHot], true⟩]).1

/-- C3 (failing input for the claim): with queue `[rdA, rdB]` and a
delivery that succeeds on every item, the drain pass attempts delivery
of `rdA` only — `rdB` is skipped by the remove-while-iterating loop —
and persists `[rdB]` as the new queue, although `rdB` was never
attempted; the claim says every queued reading gets exactly one attempt
and the persisted content is the failed subset (here empty). -/
theorem drain_pass_skips_items :
    drainPending (fun _ => true) [rdA, rdB] = ([rdA], [rdB]) ∧
    tick { sensorRead := .ok 25, timestamp := "2024-05-01 10:30:00", isConnected := true,
           loadOk := true, persistOk := true, clearOk := true, saveOk := true,
           sendOk := fun _ => true } (some [rdA, rdB]) = .ok (some [rdB], 2) := by
  constructor
  · decide
  · decide

/-- C5 counterexample: starting from one stored reading and flag `"1"`,
a reset whose commit succeeds but whose flag-file write fails clears the
readings yet leaves the flag at `"1"`: one effect occurs and the other
is not rolled back, contradicting all-or-nothing atomicity. -/
theorem reset_not_atomic :
    reset_temperature ⟨[recHot], "1"⟩ true false = (⟨[], "1"⟩, true) ∧
    ¬ ((⟨[], "1"⟩ : ServerState).flagFile = "0") := by
  constructor
  · decide
  · decide

/-- C5 amended: the reset clears the readings and resets the flag as two
sequential steps; when both succeed, the stored readings are empty, the
accumulative temperature reads back as 0, and a subsequent threshold
crossing triggers exactly one new notification (further checks add
none); but a flag-write failure after the commit is not rolled back. -/
theorem reset_success_path :
    (∀ st : ServerState, reset_temperature st true true = (⟨[], "0"⟩, false)) ∧
    calculate_accumulative_temperature [] = .ok ⟨0, []⟩ ∧
    (∀ (rs : List Temperature) (res : AccumResult),
      calculate_accumulative_temperature rs = .ok res →
      THRESHOLD < res.accumulative_temperature →
      ∀ cs : List CheckCall,
        runChecks "0" (⟨.windowed, rs, true⟩ :: cs) = ("1", 1)) := by
  refine ⟨fun st => rfl, rfl, ?_⟩
  intro rs res hres hgt cs
  have hne : rs ≠ [] := by
    intro hnil
    subst hnil
    simp only [calculate_accumulative_temperature, Except.ok.injEq] at hres
    rw [← hres] at hgt
    norm_num [THRESHOLD] at hgt
  have hstep : runCheck ⟨.windowed, rs, true⟩ "0" = ("1", 1) := by
    cases rs with
    | nil => exact absurd rfl hne
    | cons r rest =>
      simp only [runCheck, calc_windowed_run, hres]
      have : ¬ strip "0" = "1" := by decide
      simp [this, hgt, gmail_notification]
  simp only [runChecks, hstep]
  rw [runChecks_of_notified "1" (by decide) cs]
  rfl

theorem reset_success_path_witness :
    runChecks "0" [⟨.windowed, [recHot], true⟩] = ("1", 1) :=
  reset_success_path.2.2 [recHot] ⟨300, [("2024-05-01 10:00:00", 300)]⟩
    (by decide) (by decide) []

/-- C6: replacing the persisted queue content with `xs` and loading it
back returns `xs`; the empty sequence collapses to an absent queue file,
and loading from an absent queue file returns the empty sequence rather
than an error. -/
theorem queue_roundtrip :
    (∀ (xs : List Reading) (q : QueueFile),
      ∃ q', replaceAll true true xs q = .ok q' ∧
        load_unsent_data true q' = .ok xs ∧ (xs = [] → q' = none)) ∧
    (∀ b : Bool, load_unsent_data b none = .ok []) := by
  constructor
  · intro xs q
    by_cases h : xs = []
    · subst h
      exact ⟨none, by simp [replaceAll, clear_unsent_data], rfl, fun _ => rfl⟩
    · exact ⟨some xs, by simp [replaceAll, h], by simp [load_unsent_data],
        fun h2 => absurd h2 h⟩
  · intro b
    rfl

theorem queue_roundtrip_witness :
    ∃ q', replaceAll true true [rdA] none = .ok q' ∧
      load_unsent_data true q' = .ok [rdA] ∧ ([rdA] = [] → q' = none) :=
  queue_roundtrip.1 [rdA] none

/-- C7 counterexample: a sampling tick raises an uncaught exception when
the sensor read raises, and also when the queue file is present but its
read/decode fails — so not every outcome of the tick's external
operations is caught. -/
theorem tick_uncaught_exception :
    tick envSensorFail none = .error () ∧
    tick envLoadFail (some [rdA]) = .error () := by
  constructor
  · decide
  · decide

/-- C7 amended: if the sensor read returns a value, the queue-file load
succeeds, and the direct queue rewrite of the drain pass succeeds, then
one iteration of the sampling loop completes without raising, for every
outcome of the connectivity probe, the delivery attempts, and the
(internally guarded) save/clear operations. -/
theorem tick_no_raise_when_guarded (env : TickEnv) (q : QueueFile) (t : ℚ)
    (hs : env.sensorRead = .ok t) (hl : env.loadOk = true) (hp : env.persistOk = true) :
    ∃ out, tick env q = .ok out := by
  by_cases hv : valid_temperature t
  · obtain ⟨xs, hxs⟩ : ∃ xs, load_unsent_data env.loadOk q = .ok xs := by
      cases q with
      | none => exact ⟨[], rfl⟩
      | some ys => exact ⟨ys, by simp [load_unsent_data, hl]⟩
    by_cases hc : env.isConnected
    · cases hdp : drainPending env.sendOk xs with
      | mk attempted remaining =>
        obtain ⟨q1, hq1⟩ : ∃ q1, replaceAll env.persistOk env.clearOk remaining q = .ok q1 := by
          by_cases hrem : remaining = []
          · exact ⟨clear_unsent_data env.clearOk q, by simp [replaceAll, hrem]⟩
          · exact ⟨some remaining, by simp [replaceAll, hrem, hp]⟩
        by_cases hsd : env.sendOk ⟨env.timestamp, t⟩
        · refine ⟨(q1, attempted.length + 1), ?_⟩
          simp [tick, hs, hv, hxs, hc, hdp, hq1, hsd]
        · refine ⟨(save_unsent_data env.saveOk q1 ⟨env.timestamp, t⟩, attempted.length + 1), ?_⟩
          simp [tick, hs, hv, hxs, hc, hdp, hq1, hsd]
    · refine ⟨(save_unsent_data env.saveOk q ⟨env.timestamp, t⟩, 0), ?_⟩
      simp [tick, hs, hv, hxs, hc]
  · exact ⟨(q, 0), by simp [tick, hs, hv]⟩

theorem tick_no_raise_when_guarded_witness :
    ∃ out, tick envAllOk (some [rdA, rdB]) = .ok out :=
  tick_no_raise_when_guarded envAllOk (some [rdA, rdB]) 25 rfl rfl rfl

/-- C8: `valid_temperature t` holds iff `-10 ≤ t ≤ 100`, and a sampling
tick whose reading is out of range returns with the queue file untouched
and zero delivery attempts. -/
theorem valid_range_and_discard :
    (∀ t : ℚ, valid_temperature t = true ↔ (-10 ≤ t ∧ t ≤ 100)) ∧
    (∀ (env : TickEnv) (q : QueueFile) (t : ℚ),
      env.sensorRead = .ok t → valid_temperature t = false →
      tick env q = .ok (q, 0)) := by
  constructor
  · intro t
    simp [valid_temperature]
  · intro env q t hs hv
    simp [tick, hs, hv]

theorem valid_range_and_discard_witness :
    (valid_temperature 150 = true ↔ (-10 ≤ (150 : ℚ) ∧ (150 : ℚ) ≤ 100)) ∧
    tick ⟨.ok 150, "2024-05-01 10:30:00", true, true, true, true, true, fun _ => true⟩
      (some [rdA]) = .ok (some [rdA], 0) :=
  ⟨(valid_range_and_discard.1 150),
    valid_range_and_discard.2 _ (some [rdA]) 150 rfl (by decide)⟩

/-- C10: the `GET /accumulative_temperature/` endpoint is not
side-effect-free — when the computed value exceeds the threshold and the
persisted flag is not set, handling the GET invokes the notifier once
and, on notifier success, persists the flag as `"1"`, with exactly the
same state effects as the 300-second periodic check. -/
theorem get_endpoint_side_effects (st : ServerState) (ok : Bool) (res : AccumResult)
    (hres : calculate_accumulative_temperature st.records = .ok res)
    (hgt : THRESHOLD < res.accumulative_temperature)
    (hflag : ¬ strip st.flagFile = "1") :
    (get_accumulative_temperature st ok).2.2 = 1 ∧
    (ok = true → (get_accumulative_temperature st ok).2.1.flagFile = "1") ∧
    (get_accumulative_temperature st ok).2 = accumulative_temperature_check st ok := by
  have hrun : calc_windowed_run st.records st.flagFile ok =
      (.ok res, gmail_notification ok st.flagFile, 1) := by
    cases hr : st.records with
    | nil =>
      rw [hr] at hres
      simp only [calculate_accumulative_temperature, Except.ok.injEq] at hres
      rw [← hres] at hgt
      norm_num [THRESHOLD] at hgt
    | cons r rest =>
      rw [hr] at hres
      simp [calc_windowed_run, hres, hgt, hflag]
  refine ⟨?_, ?_, ?_⟩
  · simp [get_accumulative_temperature, hrun]
  · intro hok
    subst hok
    simp [get_accumulative_temperature, hrun, gmail_notification]
  · simp [get_accumulative_temperature, accumulative_temperature_check, hrun]

theorem get_endpoint_side_effects_witness :
    (get_accumulative_temperature ⟨[recHot], "0"⟩ true).2.2 = 1 ∧
    (true = true → (get_accumulative_temperature ⟨[recHot], "0"⟩ true).2.1.flagFile = "1") ∧
    (get_accumulative_temperature ⟨[recHot], "0"⟩ true).2 =
      accumulative_temperature_check ⟨[recHot], "0"⟩ true :=
  get_endpoint_side_effects ⟨[recHot], "0"⟩ true ⟨300, [("2024-05-01 10:00:00", 300)]⟩
    (by decide) (by decide) (by decide)

/-- C4 counterexample: a stored sequence containing a record whose
timestamp fails to parse makes the windowed aggregation raise (an error
reaches the caller) instead of skipping that record and computing over
the remaining valid one. -/
theorem malformed_record_raises :
    calculate_accumulative_temperature [⟨"2024-05-01 10:00:00", 20⟩, recBad]
      = .error () := by
  decide

/-- C4 amended: neither aggregation policy skips a malformed record —
the windowed policy raises exactly when some record's timestamp is
unparseable, and the (total) daily policy aggregates a record with an
unparseable timestamp under its split-prefix key instead of skipping
it. -/
theorem malformed_record_behavior :
    (∀ rs : List Temperature, rs ≠ [] →
      (calculate_accumulative_temperature rs = .error () ↔
        ∃ r ∈ rs, parseTs r.timestamp = none)) ∧
    calculate_accumulative_temperature_production_env [recBad] =
      ⟨10, [("bad-timestamp", 10)]⟩ := by
  constructor
  · intro rs hne
    cases rs with
    | nil => exact absurd rfl hne
    | cons r0 rest =>
      simp only [calculate_accumulative_temperature]
      cases h0 : parseTs r0.timestamp with
      | none =>
        exact iff_of_true rfl ⟨r0, List.mem_cons_self r0 rest, h0⟩
      | some t0 =>
        cases hp : parseRecords (r0 :: rest) with
        | none =>
          exact iff_of_true rfl ((parseRecords_eq_none (r0 :: rest)).1 hp)
        | some ps =>
          refine iff_of_false (by simp) fun hex => ?_
          rw [(parseRecords_eq_none (r0 :: rest)).2 hex] at hp
          exact Option.noConfusion hp
  · decide

theorem malformed_record_behavior_witness :
    calculate_accumulative_temperature [recBad] = .error () ↔
      ∃ r ∈ [recBad], parseTs r.timestamp = none :=
  malformed_record_behavior.1 [recBad] (by decide)

/-- C9: the daily-maximum policy groups stored readings by the
calendar-date component of the timestamp, takes the maximum temperature
per date, and returns the sum over all dates present together with
`max_points` keyed by date sorted ascending; in particular, readings
spanning two calendar dates with per-date maxima 40 and 60 yield
`accumulative_temperature = 100` and two `max_points` entries. -/
theorem daily_policy_spec :
    (∀ rs : List Temperature,
      (calculate_accumulative_temperature_production_env rs).accumulative_temperature =
        ((dedupFirst (rs.map fun r => datePart r.timestamp)).map fun d => dateMax d rs).sum ∧
      (calculate_accumulative_temperature_production_env rs).max_points =
        List.insertionSort pairLe
          ((dedupFirst (rs.map fun r => datePart r.timestamp)).map
            fun d => (d, dateMax d rs)) ∧
      ((calculate_accumulative_temperature_production_env rs).max_points.map
        Prod.fst).Sorted (· ≤ ·)) ∧
    calculate_accumulative_temperature_production_env dailyExample =
      ⟨100, [("2024-05-01", 40), ("2024-05-02", 60)]⟩ := by
  have hpts : ∀ rs : List Temperature,
      (calculate_accumulative_temperature_production_env rs).max_points =
        List.insertionSort pairLe (dailyPairs rs) := by
    intro rs
    cases rs with
    | nil => rfl
    | cons r rest => rfl
  constructor
  · intro rs
    refine ⟨?_, ?_, ?_⟩
    · cases rs with
      | nil => rfl
      | cons r rest =>
        show ((List.insertionSort pairLe (dailyPairs (r :: rest))).map Prod.snd).sum = _
        have hperm : List.Perm (List.insertionSort pairLe (dailyPairs (r :: rest)))
            (dailyPairs (r :: rest)) :=
          List.perm_insertionSort pairLe _
        rw [List.Perm.sum_eq (hperm.map Prod.snd), dailyPairs_eq, List.map_map]
        rfl
    · rw [hpts, dailyPairs_eq]
    · rw [hpts]
      have hs : (List.insertionSort pairLe (dailyPairs rs)).Sorted pairLe :=
        List.sorted_insertionSort pairLe _
      have hp : List.Pairwise (fun a b : String × ℚ => a.1 ≤ b.1)
          (List.insertionSort pairLe (dailyPairs rs)) :=
        hs.imp fun h => (pairLe_iff _ _).mp h
      exact List.pairwise_map.mpr hp
  · decide

/-- C1: for every stored sequence whose timestamps parse — with the
parsed times in the nondecreasing order the `ORDER BY timestamp` query
delivers them — `calculate_accumulative_temperature` returns the sum of
the per-window maximum temperatures over exactly the occupied 5-minute
windows anchored at the first reading's timestamp (no entries are
emitted for empty windows spanning gaps), and `max_points` lists exactly
those per-window maxima in window order; in particular the readings
`(t0,10), (t0+1m,20), (t0+6m,5)` yield `max_points`
`[(t0+1m,20), (t0+6m,5)]` with sum 25, the readings `(t0,10),
(t0+47m,30)` yield `[(t0,10), (t0+47m,30)]` with sum 40, and the empty
sequence yields 0 with no points. -/
theorem windowed_policy_spec :
    (∀ (rs : List Temperature) (ps : List PRec) (p0 : PRec) (rest : List PRec),
      parseRecords rs = some ps →
      List.Pairwise (fun a b : PRec => a.1 ≤ b.1) ps →
      ps = p0 :: rest →
      ∃ mp : List (String × ℚ),
        calculate_accumulative_temperature rs =
          .ok ⟨((occupiedWindows p0.1 ps).map fun k => windowMax p0.1 k ps).sum, mp⟩ ∧
        mp.map Prod.snd = (occupiedWindows p0.1 ps).map fun k => windowMax p0.1 k ps) ∧
    calculate_accumulative_temperature [recT0, recT1, recT6] =
      .ok ⟨25, [("2024-05-01 10:01:00", 20), ("2024-05-01 10:06:00", 5)]⟩ ∧
    calculate_accumulative_temperature [recT0, recT47] =
      .ok ⟨40, [("2024-05-01 10:00:00", 10), ("2024-05-01 10:47:00", 30)]⟩ ∧
    calculate_accumulative_temperature [] = .ok ⟨0, []⟩ := by
  refine ⟨?_, by decide, by decide, rfl⟩
  intro rs ps p0 rest hparse hsort hps
  subst hps
  cases rs with
  | nil => simp [parseRecords] at hparse
  | cons r0 rs' =>
    have hdis : ∃ t, parseTs r0.timestamp = some t ∧
        ∃ ps2, parseRecords rs' = some ps2 ∧
          (t, r0.temperature) :: ps2 = p0 :: rest := by
      simp only [parseRecords] at hparse
      cases hpr : parseTs r0.timestamp with
      | none =>
        rw [hpr] at hparse
        cases hparse
      | some t =>
        rw [hpr] at hparse
        cases hrs : parseRecords rs' with
        | none =>
          rw [hrs] at hparse
          cases hparse
        | some ps2 =>
          rw [hrs] at hparse
          exact ⟨t, rfl, ps2, rfl, Option.some.inj hparse⟩
    obtain ⟨t, hpr, ps2, hrs, heq⟩ := hdis
    obtain ⟨hhead, htail⟩ := List.cons.inj heq
    have ht : t = p0.1 := by rw [← hhead]
    have hv : r0.temperature = p0.2 := by rw [← hhead]
    subst ht
    subst htail
    have hps2 : parseRecords (r0 :: rs') = some (p0 :: ps2) := by
      simp only [parseRecords, hpr, hrs, hv, Prod.mk.eta]
    have hcalc : calculate_accumulative_temperature (r0 :: rs') =
        .ok ⟨(winLoopP (p0.1 + 300) none 0 [] (p0 :: ps2)).1,
             (winLoopP (p0.1 + 300) none 0 [] (p0 :: ps2)).2⟩ := by
      simp only [calculate_accumulative_temperature, hpr, hps2]
    have hfirst : winLoopP (p0.1 + 300) none 0 [] (p0 :: ps2) =
        winLoopP (p0.1 + 300 * (0 + 1)) (some (p0.1, p0.2)) 0 [] ps2 := by
      simp only [winLoopP]
      rw [if_pos (by omega)]
    have hsort2 : List.Pairwise (fun a b : PRec => a.1 ≤ b.1) ps2 :=
      (List.pairwise_cons.mp hsort).2
    have hmem2 : ∀ q ∈ ps2, 0 ≤ widx p0.1 q.1 := fun q _ => Nat.zero_le _
    have hrun := winLoopP_run p0.1 ps2 0 p0.1 p0.2 0 [] hsort2 hmem2
    have hfull := windowVals_full p0.1 p0 ps2 rfl
    refine ⟨(winLoopP (p0.1 + 300 * (0 + 1)) (some (p0.1, p0.2)) 0 [] ps2).2, ?_, ?_⟩
    · rw [hcalc, hfirst, hrun.1, hfull, zero_add]
    · rw [hrun.2, hfull]
      simp

theorem windowed_policy_spec_witness :
    ∃ mp : List (String × ℚ),
      calculate_accumulative_temperature [recT0, recT1, recT6] =
        .ok ⟨((occupiedWindows 63881776800 [(63881776800, 10), (63881776860, 20),
              (63881777160, 5)]).map fun k =>
            windowMax 63881776800 k [(63881776800, 10), (63881776860, 20),
              (63881777160, 5)]).sum, mp⟩ ∧
      mp.map Prod.snd = (occupiedWindows 63881776800 [(63881776800, 10),
          (63881776860, 20), (63881777160, 5)]).map fun k =>
        windowMax 63881776800 k [(63881776800, 10), (63881776860, 20),
          (63881777160, 5)] :=
  windowed_policy_spec.1 [recT0, recT1, recT6]
    [(63881776800, 10), (63881776860, 20), (63881777160, 5)]
    (63881776800, 10) [(63881776860, 20), (63881777160, 5)]
    (by decide) (by decide) rfl

end NotificationApp
